import Mathlib

/-!
# Verification of the evoc optimizer core (ju4700/evoc)

Shallow embedding of the transform/rewrite engine (`eca/core.py`), the
evolutionary search (`eca/evolution.py`), the greedy driver loop
(`eca/__main__.py`) and the hotspot profiler (`eca/profiler.py`), together
with proofs and refutations of the specification claims.

Modelling conventions:
* Python strings that the code inspects character by character are modelled
  as `List Char` (`PyStr`); the helpers below reimplement the exact Python
  primitives used (`str.strip`, `str.startswith`, `str.splitlines`,
  `str.split(None, k)`, `str.lstrip`, `float(...)`).
* Python source text is modelled by `Source`: either a parsed module
  (a list of statements of the AST fragment the transforms inspect) or
  syntactically invalid text.  `ast.parse` is `Source.parse?`;
  `ast.unparse` is the identity on parsed modules.
* `ast.dump`-based structural comparison is structural equality of the
  embedded AST (`DecidableEq`).
* Subprocess executions are external events; each one is an input of type
  `RunOutcome` (exit code and captured stdout lines, or a timeout).  The
  Python-side parsing of the captured stdout is modelled faithfully.
* Exceptions that the Python code lets escape are modelled with
  `Except Unit` / `Except String`; code paths that catch all exceptions
  return plain values.
-/

namespace Evoc

/-! ## Python string primitives -/

abbrev PyStr := List Char

/-- Python `str.strip()` on ASCII whitespace. -/
def pyStrip (s : PyStr) : PyStr :=
  ((s.dropWhile Char.isWhitespace).reverse.dropWhile Char.isWhitespace).reverse

/-- Python `a.startswith(b)`. -/
def pyStartsWith : PyStr → PyStr → Bool
  | _, [] => true
  | [], _ :: _ => false
  | a :: as, b :: bs => a == b && pyStartsWith as bs

/-- Worker for `pySplitLines`: accumulates the current line in reverse. -/
def pySplitLinesGo (cur : PyStr) : PyStr → List PyStr
  | [] => [cur.reverse]
  | '\n' :: [] => [cur.reverse]
  | '\n' :: c :: rest => cur.reverse :: pySplitLinesGo [] (c :: rest)
  | c :: rest => pySplitLinesGo (c :: cur) rest

/-- Python `str.splitlines()` restricted to `\n` separators (the only
line separator occurring in the strings this program builds). -/
def pySplitLines : PyStr → List PyStr
  | [] => []
  | c :: rest => pySplitLinesGo [] (c :: rest)

/-- Python `s.split()` / `s.split(None, maxsplit)`: split on runs of
whitespace; once `maxsplit` splits have been made the remainder (with
leading whitespace removed) is the final field. -/
def pySplitNone (maxsplit : Nat) (s : PyStr) : List PyStr :=
  let s' := s.dropWhile Char.isWhitespace
  if s'.isEmpty then []
  else
    match maxsplit with
    | 0 => [s']
    | k + 1 =>
      let w := s'.takeWhile (fun c => !c.isWhitespace)
      let rest := s'.dropWhile (fun c => !c.isWhitespace)
      w :: pySplitNone k rest

/-- Split on a single space character (used to tokenize one-line import
declarations, whose only separators are single spaces). -/
def pySplitWords (s : PyStr) : List PyStr :=
  (pySplitNone s.length s)

/-- Python identifier test: nonempty, `[A-Za-z_][A-Za-z0-9_]*`. -/
def isPyIdent (s : PyStr) : Bool :=
  match s with
  | [] => false
  | c :: cs => (c.isAlpha || c == '_') && cs.all (fun d => d.isAlphanum || d == '_')

/-- Natural number denoted by a nonempty digit string. -/
def digitsToNat (s : PyStr) : Nat :=
  s.foldl (fun acc c => acc * 10 + (c.toNat - '0'.toNat)) 0

/-- Python `float(text)` on the decimal / scientific forms produced by
`print(end - start)`: optional sign, digits with optional fractional part,
optional exponent.  Returns the denoted rational, or `none` when the text
is not of this form (Python would raise `ValueError`). -/
def pyFloat? (s : PyStr) : Option ℚ :=
  let (sgn, s1) : Int × PyStr :=
    match s with
    | '-' :: rest => (-1, rest)
    | '+' :: rest => (1, rest)
    | _ => (1, s)
  let intPart := s1.takeWhile Char.isDigit
  let s2 := s1.dropWhile Char.isDigit
  let (fracPart, s3) : PyStr × PyStr :=
    match s2 with
    | '.' :: rest => (rest.takeWhile Char.isDigit, rest.dropWhile Char.isDigit)
    | _ => ([], s2)
  if intPart.isEmpty && fracPart.isEmpty then none
  else
    let mantNum : Int := sgn * ((digitsToNat intPart) * 10 ^ fracPart.length + digitsToNat fracPart)
    let mantDen : Nat := 10 ^ fracPart.length
    match s3 with
    | [] => some (mkRat mantNum mantDen)
    | e :: rest =>
      if e == 'e' || e == 'E' then
        let (negExp, r1) : Bool × PyStr :=
          match rest with
          | '-' :: r => (true, r)
          | '+' :: r => (false, r)
          | _ => (false, rest)
        let edigits := r1.takeWhile Char.isDigit
        let r2 := r1.dropWhile Char.isDigit
        if edigits.isEmpty || !r2.isEmpty then none
        else
          let ex := digitsToNat edigits
          if negExp then some (mkRat mantNum (mantDen * 10 ^ ex))
          else some (mkRat (mantNum * 10 ^ ex) mantDen)
      else none

/-! ## The Python AST fragment -/

mutual

/-- Expressions of the AST fragment the transforms build and inspect
(`ast.Name`, `ast.Constant`, `ast.Attribute`, `ast.Call` with keywords,
`ast.List`, single-generator `ast.ListComp`, `ast.BinOp`).  Structural
equality of these values models equality of `ast.dump` output.
Self-nested sequences use the mutual cons-lists `PExprs` / `PKws`. -/
inductive PExpr where
  | name (id : String)
  | constNone
  | constInt (n : Int)
  | constStr (s : String)
  | attribute (value : PExpr) (attr : String)
  | call (func : PExpr) (args : PExprs) (keywords : PKws)
  | listLit (elts : PExprs)
  | listComp (elt : PExpr) (target : PExpr) (iter : PExpr)
  | binOp (op : String) (left right : PExpr)
  deriving DecidableEq, Repr

/-- A sequence of expressions (argument and element lists). -/
inductive PExprs where
  | nil
  | cons (head : PExpr) (tail : PExprs)
  deriving DecidableEq, Repr

/-- A sequence of keyword arguments (`ast.keyword`). -/
inductive PKws where
  | nil
  | cons (key : String) (value : PExpr) (tail : PKws)
  deriving DecidableEq, Repr

end

mutual

/-- Statements of the AST fragment (`ast.Assign`, `ast.For` with orelse,
`ast.Expr`, `ast.Return`, `ast.Import`, `ast.ImportFrom`,
`ast.FunctionDef`, `ast.Pass`).  Statement blocks nested inside a
statement use the mutual cons-list `PStmts`. -/
inductive PStmt where
  | assign (targets : List PExpr) (value : PExpr)
  | forS (target : PExpr) (iter : PExpr) (body : PStmts) (orelse : PStmts)
  | exprS (value : PExpr)
  | ret (value : Option PExpr)
  | importS (modules : List String)
  | importFrom (module : String) (names : List String)
  | functionDef (name : String) (args : List String) (decorators : List PExpr)
      (body : PStmts)
  | passS
  deriving DecidableEq, Repr

/-- A sequence of statements forming a nested block. -/
inductive PStmts where
  | nil
  | cons (head : PStmt) (tail : PStmts)
  deriving DecidableEq, Repr

end

/-- View a nested statement block as an ordinary list. -/
def PStmts.toList : PStmts → List PStmt
  | .nil => []
  | .cons s rest => s :: rest.toList

/-- Build a nested statement block from an ordinary list. -/
def PStmts.ofList : List PStmt → PStmts
  | [] => .nil
  | s :: rest => .cons s (PStmts.ofList rest)

/-- A module body, as produced by `ast.parse`. -/
abbrev Module := List PStmt

/-- Program text: either syntactically valid (carrying its parse) or not.
`ast.unparse` of a transformed tree is modelled as the tree itself. -/
inductive Source where
  | parsed (m : Module)
  | invalid (text : String)
  deriving DecidableEq, Repr

/-- `ast.parse`, as a partial function on `Source`. -/
def Source.parse? : Source → Option Module
  | .parsed m => some m
  | .invalid _ => none

/-- Python truthiness of the serialized source (`if v:` / `if not cand:`):
only the empty string is falsy, i.e. the empty module. -/
def isFalsySource : Source → Bool
  | .parsed [] => true
  | .invalid t => t == ""
  | _ => false

def isImportStmt : PStmt → Bool
  | .importS _ => true
  | .importFrom _ _ => true
  | _ => false

deriving instance DecidableEq for Except

/-! ## `core.LoopToCompTransformer`

`visit_FunctionDef` walks a function body with a cursor `i`; whenever the
statement at `i` is an `Assign` and the one at `i+1` is a `For`, it checks
for the pattern `N = []` followed by `for t in it: N.append(e)` and, on a
match, replaces the two statements by `N = [e for t in it]` (advancing by
two); on a partial match it keeps the head and advances by one.  When the
pattern matches but the append call has no argument, `call.args[0]` raises
`IndexError`, which `try_apply_transform` catches. -/

/-- Result of inspecting one `(Assign, For)` statement pair. -/
inductive PatRes where
  | noMatch
  | crash
  | rewrite (newAssign : PStmt)
  deriving DecidableEq, Repr

/-- The pattern test of `LoopToCompTransformer.visit_FunctionDef`
(evolution of the cursor over one candidate pair). -/
def patternStep (s1 s2 : PStmt) : PatRes :=
  match s1, s2 with
  | .assign [.name n] (.listLit .nil), .forS tgt iter body _orelse =>
    match body with
    | .cons (.exprS (.call (.attribute (.name m) attr) args _kws)) .nil =>
      if attr = "append" && m = n then
        match args with
        | .nil => .crash
        | .cons a _ => .rewrite (.assign [.name n] (.listComp a tgt iter))
      else .noMatch
    | _ => .noMatch
  | _, _ => .noMatch

/-- One-statement-at-a-time form of the cursor loop: `pending` is the
statement at the cursor whose successor has not been examined yet.  On a
pattern match both statements are consumed (`i += 2`); otherwise the
pending statement is emitted and the cursor advances by one. -/
def rewriteBodyGo (pending : Option PStmt) : List PStmt → Option (List PStmt)
  | [] =>
    match pending with
    | none => some []
    | some s => some [s]
  | s :: rest =>
    match pending with
    | none => rewriteBodyGo (some s) rest
    | some p =>
      match patternStep p s with
      | .crash => none
      | .rewrite a => (rewriteBodyGo none rest).map (a :: ·)
      | .noMatch => (rewriteBodyGo (some s) rest).map (p :: ·)

/-- The cursor loop over a function body (`while i < len(node.body)`).
`none` models the uncaught `IndexError` on an argument-less `append`. -/
def rewriteBody (body : List PStmt) : Option (List PStmt) :=
  rewriteBodyGo none body

mutual

/-- `NodeTransformer` dispatch on one statement: `visit_FunctionDef` first
runs `generic_visit` (recursively transforming nested statements) and then
rewrites the body with the cursor loop; all other statements are traversed
generically. -/
def transformStmt : PStmt → Option PStmt
  | .functionDef nm args decs body => do
    let b1 ← transformStmts body
    let b2 ← rewriteBody b1.toList
    return .functionDef nm args decs (PStmts.ofList b2)
  | .forS tgt iter body orelse => do
    return .forS tgt iter (← transformStmts body) (← transformStmts orelse)
  | s => some s

/-- Generic traversal of a statement block. -/
def transformStmts : PStmts → Option PStmts
  | .nil => some .nil
  | .cons s rest => do
    return .cons (← transformStmt s) (← transformStmts rest)

end

/-- Generic traversal of the top-level module body (`visit` on the
`Module` node dispatches `generic_visit`, transforming each child). -/
def transformModule : List PStmt → Option (List PStmt)
  | [] => some []
  | s :: rest =>
    (transformStmt s).bind fun s1 =>
      (transformModule rest).bind fun r1 =>
        some (s1 :: r1)

/-- `core.try_apply_transform`: parse, run the transformer over the module
(the module level itself is only traversed, not rewritten), serialize;
every exception is caught and reported as `None`. -/
def try_apply_transform (source : Source) : Option Source :=
  match source with
  | .invalid _ => none
  | .parsed m => (transformModule m).map .parsed

/-! ## `core.add_decorator_to_function`

The decorator spec string is split into stripped nonempty lines; a line
starting with `@` sets the decorator expression (with all leading `@`
stripped), a line starting with `from ` or `import ` is parsed as an
imported declaration (parse failures are swallowed), and any other line
is taken as a bare decorator expression.  `ast.parse(source)` at the top of
the function is NOT inside a `try`, so a syntactically invalid source
raises. -/

/-- Parse of a one-line import declaration (`ast.parse(ln).body[0]` for
the forms `import M` and `from M import N` this program emits; any other
text fails, as does any token that is not a plain identifier). -/
def parseImportLine? (ln : PyStr) : Option PStmt :=
  match pySplitWords ln with
  | [w1, m] =>
    if w1 = ("import").toList ∧ isPyIdent m then some (.importS [String.mk m]) else none
  | [w1, m, w2, n] =>
    if w1 = ("from").toList ∧ w2 = ("import").toList ∧ isPyIdent m ∧ isPyIdent n then
      some (.importFrom (String.mk m) [String.mk n])
    else none
  | _ => none

/-- An atomic expression: `None`, an identifier, or an integer literal. -/
def parseAtom? (s : PyStr) : Option PExpr :=
  if s = ("None").toList then some .constNone
  else if isPyIdent s then some (.name (String.mk s))
  else if s ≠ [] ∧ s.all Char.isDigit then some (.constInt (digitsToNat s))
  else none

/-- Parse of a decorator expression (`ast.parse(expr, mode='eval')`) for
the forms this program constructs: an identifier, or a call of an
identifier with no argument, one positional atom, or one keyword atom
(e.g. `lru_cache(maxsize=None)`, `njit`).  Texts outside this fragment
are rejected. -/
def parseDecExpr? (s : PyStr) : Option PExpr :=
  if s = ("None").toList then some .constNone
  else if isPyIdent s then some (.name (String.mk s))
  else
    let fn := s.takeWhile (fun c => c ≠ '(')
    let rest := s.dropWhile (fun c => c ≠ '(')
    match rest with
    | '(' :: inner =>
      if isPyIdent fn ∧ inner.getLast? = some ')' then
        let body := inner.dropLast
        if body.any (fun c => c = '(' ∨ c = ')') then none
        else if body = [] then some (.call (.name (String.mk fn)) .nil .nil)
        else
          let k := body.takeWhile (fun c => c ≠ '=')
          let r := body.dropWhile (fun c => c ≠ '=')
          match r with
          | '=' :: v =>
            match parseAtom? v with
            | some ve =>
              if isPyIdent k then
                some (.call (.name (String.mk fn)) .nil (.cons (String.mk k) ve .nil))
              else none
            | none => none
          | _ =>
            match parseAtom? body with
            | some ve => some (.call (.name (String.mk fn)) (.cons ve .nil) .nil)
            | none => none
      else none
    | _ => none

/-- Processing of one stripped spec line (the `for ln in lines` loop). -/
def processSpecLine (acc : List PStmt × Option PyStr) (ln : PyStr) :
    List PStmt × Option PyStr :=
  if pyStartsWith ln (("@").toList) then
    (acc.1, some (ln.dropWhile (fun c => c = '@')))
  else if pyStartsWith ln (("from ").toList) ∨ pyStartsWith ln (("import ").toList) then
    match parseImportLine? ln with
    | some n => (acc.1 ++ [n], acc.2)
    | none => acc
  else (acc.1, some ln)

/-- `lines = [l.strip() for l in decorator_src.splitlines() if l.strip()]`
followed by the classification loop. -/
def processSpec (spec : String) : List PStmt × Option PyStr :=
  (((pySplitLines spec.toList).map pyStrip).filter (fun l => l ≠ [])).foldl
    processSpecLine ([], none)

/-- The import declarations recognized in a decorator spec. -/
def specImports (spec : String) : List PStmt :=
  (processSpec spec).1

/-- The decorator expression recognized in a decorator spec (`None` when
no decorator line was recognized or its parse failed). -/
def specDecorator? (spec : String) : Option PExpr :=
  (processSpec spec).2.bind parseDecExpr?

/-- Decoration of one top-level statement (the `for node in tree.body`
loop): a function definition whose name matches gets the decorator
inserted at the front of its decorator list unless an identical one is
already present; either way it sets `modified`. -/
def decorateStmt (fnName : String) (dec : PExpr) : PStmt → PStmt × Bool
  | .functionDef nm args decs body =>
    if nm = fnName then
      if dec ∈ decs then (.functionDef nm args decs body, true)
      else (.functionDef nm args (dec :: decs) body, true)
    else (.functionDef nm args decs body, false)
  | s => (s, false)

/-- `core.add_decorator_to_function`.  `Except.error` models the uncaught
`SyntaxError` of `ast.parse(source)` on invalid input; `.ok none` is the
function returning `None` (no decorator recognized, or no matching
function). -/
def add_decorator_to_function (src : Source) (fnName : String)
    (decoratorSrc : String) : Except Unit (Option Source) :=
  match src with
  | .invalid _ => .error ()
  | .parsed tree =>
    let imps := specImports decoratorSrc
    let existing := tree.filter isImportStmt
    let toInsert := imps.filter (fun n => decide (n ∉ existing))
    let tree1 := toInsert ++ tree
    match specDecorator? decoratorSrc with
    | none => .ok none
    | some dec =>
      let results := tree1.map (decorateStmt fnName dec)
      if results.any (fun r => r.2) then .ok (some (.parsed (results.map (fun r => r.1))))
      else .ok none

/-! ## `core.dedupe_source` -/

/-- Keep-first deduplication of a decorator list (`seen_decs`). -/
def dedupeDecsGo (seen : List PExpr) : List PExpr → List PExpr
  | [] => []
  | d :: rest =>
    if d ∈ seen then dedupeDecsGo seen rest
    else d :: dedupeDecsGo (d :: seen) rest

/-- The `for node in tree.body` loop of `dedupe_source`: duplicate later
top-level imports are dropped (`seen_imports` threads through the whole
body) and each function definition gets a deduplicated decorator list. -/
def dedupeBody (seen : List PStmt) : List PStmt → List PStmt
  | [] => []
  | n :: rest =>
    if isImportStmt n then
      if n ∈ seen then dedupeBody seen rest
      else n :: dedupeBody (n :: seen) rest
    else
      match n with
      | .functionDef nm args decs body =>
        .functionDef nm args (dedupeDecsGo [] decs) body :: dedupeBody seen rest
      | m => m :: dedupeBody seen rest

/-- `core.dedupe_source`: unparsable sources are returned unchanged. -/
def dedupe_source : Source → Source
  | .invalid t => .invalid t
  | .parsed m => .parsed (dedupeBody [] m)

end Evoc

namespace Evoc

/-! ## Sandboxed executions (`evolution._run_source_and_get_outputs`)

A child-process run is an external event: either it completes with an
exit code and captured output lines, or `subprocess.run` raises
`TimeoutExpired`. -/

/-- Outcome of one sandboxed subprocess run. -/
inductive RunOutcome where
  | completed (returncode : Int) (stdout : List String) (stderr : List String)
  | timedOut
  deriving DecidableEq, Repr

/-- Whether the child process ran to completion with exit status 0. -/
def execSucceeds : RunOutcome → Bool
  | .completed rc _ _ => rc == 0
  | .timedOut => false

/-- Parsing of one stdout line of the correctness driver: lines starting
with `OUT` are split with `line.split(None, 2)` and the third field (the
`repr` of the result) is kept. -/
def parseOutLine (line : String) : Option String :=
  if pyStartsWith line.toList (("OUT").toList) then
    match pySplitNone 2 line.toList with
    | _ :: _ :: payload :: _ => some (String.mk payload)
    | _ => none
  else none

/-- `evolution._run_source_and_get_outputs`: `None` exactly on timeout;
otherwise the ordered list of parsed `OUT` payloads (a crashed child that
printed nothing yields `[]`). -/
def run_source_and_get_outputs : RunOutcome → Option (List String)
  | .timedOut => none
  | .completed _ stdout _ => some (stdout.filterMap parseOutLine)

/-- Baseline recording in `EvolutionaryOptimizer.__init__`: only a `None`
result (timeout) raises `RuntimeError('Failed to compute baseline
outputs')`. -/
def computeBaseline (baselineRun : RunOutcome) : Except String (List String) :=
  match run_source_and_get_outputs baselineRun with
  | none => .error ("Failed to compute baseline outputs")
  | some b => .ok b

/-- `EvolutionaryOptimizer._passes_correctness` for a candidate whose
sandboxed run had the given outcome. -/
def passes_correctness (baseline : List String) (candidateRun : RunOutcome) : Bool :=
  match run_source_and_get_outputs candidateRun with
  | none => false
  | some outs => outs == baseline

/-! ## `evolution.apply_ops_to_source` -/

/-- The operator table `OPS`. -/
def OPS : List String :=
  [("noop"), ("lru_cache"), ("numba_njit"), ("loop_to_comp")]

/-- The decorator spec used by `evolution.apply_ops_to_source` for
`lru_cache`.  In the Python source the string literal is written with the
escape `\\n`, so its value contains a literal backslash followed by `n`,
not a newline. -/
def lruDecEvolution : String :=
  "from functools import lru_cache\\n@lru_cache(maxsize=None)"

/-- The decorator spec used by `evolution.apply_ops_to_source` for
`numba_njit` (same literal-backslash escape). -/
def njitDecEvolution : String :=
  "from numba import njit\\n@njit"

/-- The decorator spec used by `core.OptimizeRunner.generate_variants`
for `lru_cache` (a genuine newline). -/
def lruDecCore : String :=
  "from functools import lru_cache\n@lru_cache(maxsize=None)"

/-- The decorator spec used by `core.OptimizeRunner.generate_variants`
for `numba_njit` (a genuine newline). -/
def njitDecCore : String :=
  "from numba import njit\n@njit"

/-- One iteration of the `for op in ops_seq` loop.  `numbaAvailable`
models whether `import numba` succeeds.  For `lru_cache` the call to
`add_decorator_to_function` is not guarded by a `try`, so its exception
propagates; for `numba_njit` the whole block is inside a `try` that
swallows everything. -/
def applyOp (numbaAvailable : Bool) (fnName : String) (hotspots : Option (List String))
    (cur : Source) (op : Nat) : Except Unit Source :=
  if h : op ≥ OPS.length then .ok cur
  else
    let nm := OPS.get ⟨op, by omega⟩
    if nm = ("noop") then .ok cur
    else if nm = ("lru_cache") then
      if hotspots = none ∨ (∃ hs, hotspots = some hs ∧ fnName ∈ hs) then
        match add_decorator_to_function cur fnName lruDecEvolution with
        | .error e => .error e
        | .ok none => .ok cur
        | .ok (some v) => .ok (if isFalsySource v then cur else v)
      else .ok cur
    else if nm = ("numba_njit") then
      if numbaAvailable then
        match add_decorator_to_function cur fnName njitDecEvolution with
        | .error _ => .ok cur
        | .ok none => .ok cur
        | .ok (some v) => .ok (if isFalsySource v then cur else v)
      else .ok cur
    else
      if hotspots = none then
        match try_apply_transform cur with
        | none => .ok cur
        | some v => .ok (if !isFalsySource v ∧ v ≠ cur then v else cur)
      else .ok cur

/-- `evolution.apply_ops_to_source`. -/
def apply_ops_to_source (numbaAvailable : Bool) (src : Source) (fnName : String)
    (opsSeq : List Nat) (hotspots : Option (List String)) : Except Unit Source :=
  opsSeq.foldlM (applyOp numbaAvailable fnName hotspots) src

end Evoc

namespace Evoc

/-! ## Python floats and the timing oracle -/

/-- The values `time_variant_and_get_time` / fitness evaluation work
with: a finite elapsed time (a rational) or `float('inf')`. -/
inductive PyFloat where
  | val (q : ℚ)
  | inf
  deriving DecidableEq, Repr

/-- Python `<` on these floats. -/
def PyFloat.lt : PyFloat → PyFloat → Bool
  | .val a, .val b => a < b
  | .val _, .inf => true
  | .inf, _ => false

/-- Python `<=` on these floats. -/
def PyFloat.le : PyFloat → PyFloat → Bool
  | .val a, .val b => a ≤ b
  | .inf, .val _ => false
  | _, .inf => true

/-- `evolution.time_variant_and_get_time`: `None` on timeout; otherwise
the value parsed from the last `TIME` line, where a malformed line sets
`t = None` (the `try` around `float(...)` swallows the failure). -/
def time_variant_and_get_time : RunOutcome → Option ℚ
  | .timedOut => none
  | .completed _ stdout _ =>
    stdout.foldl (fun acc line =>
      if pyStartsWith line.toList (("TIME").toList) then
        match pySplitNone 1 line.toList with
        | [_, v] => pyFloat? v
        | _ => none
      else acc) none

/-! ## The greedy driver loop (`__main__.main`, greedy mode)

`OptimizeRunner.write_variant_and_run` runs the variant's driver and
parses the last `TIME` line of its stdout; here the `float(...)` call and
the `[1]` subscript are NOT protected by a `try`, so a malformed `TIME`
line raises out of the loop. -/

/-- Result tuple of `write_variant_and_run`. -/
structure WVRResult where
  rc : Option Int
  t : Option ℚ
  out : List String
  err : List String
  deriving DecidableEq, Repr

/-- Parse of the last `TIME` line (`for line in out.splitlines(): ...`),
with uncaught `IndexError` / `ValueError` as `Except.error`. -/
def parseTimeLinesStrict (lines : List String) : Except Unit (Option ℚ) :=
  lines.foldlM (fun acc line =>
    if pyStartsWith line.toList (("TIME").toList) then
      match pySplitNone 1 line.toList with
      | [_, v] =>
        match pyFloat? v with
        | some q => .ok (some q)
        | none => .error ()
      | _ => .error ()
    else .ok acc) none

/-- `core.OptimizeRunner.write_variant_and_run`: on timeout the tuple
`(None, None, '', 'timeout')`; otherwise the exit code, parsed time and
captured output. -/
def write_variant_and_run : RunOutcome → Except Unit WVRResult
  | .timedOut => .ok ⟨none, none, [], [("timeout")]⟩
  | .completed rc stdout stderr =>
    (parseTimeLinesStrict stdout).map (fun t => ⟨some rc, t, stdout, stderr⟩)

/-- One iteration of the greedy loop in `__main__.main`: the wall-clock
check observed before testing this variant, and the outcome of the
variant's sandboxed run. -/
structure GreedyStep where
  name : String
  src : Source
  expired : Bool
  outcome : RunOutcome
  deriving DecidableEq, Repr

/-- The greedy selection loop (`for i, (name, src) in enumerate(...)`):
stops at the soft deadline, and updates the best variant whenever the
parsed time is not `None` and strictly below the best so far.  Nothing
else about the run outcome is consulted. -/
def greedyGo (best : Option String × PyFloat × Option Source) :
    List GreedyStep → Except Unit (Option String × PyFloat × Option Source)
  | [] => .ok best
  | st :: rest =>
    if st.expired then .ok best
    else
      match write_variant_and_run st.outcome with
      | .error e => .error e
      | .ok r =>
        match r.t with
        | some q =>
          if PyFloat.lt (.val q) best.2.1 then
            greedyGo (some st.name, .val q, some st.src) rest
          else greedyGo best rest
        | none => greedyGo best rest

/-- The greedy driver: `best_name, best_time, best_src` start as
`None, inf, None`. -/
def greedy_best (steps : List GreedyStep) :
    Except Unit (Option String × PyFloat × Option Source) :=
  greedyGo (none, .inf, none) steps

/-- The projection of a greedy step to the data the selection loop
actually consults: name, source, deadline flag, and the parsed time. -/
def greedyTimeView (st : GreedyStep) :
    String × Source × Bool × Except Unit (Option ℚ) :=
  (st.name, st.src, st.expired, (write_variant_and_run st.outcome).map (fun r => r.t))

/-- The greedy selection loop re-expressed on time projections only. -/
def greedyGoT (best : Option String × PyFloat × Option Source) :
    List (String × Source × Bool × Except Unit (Option ℚ)) →
      Except Unit (Option String × PyFloat × Option Source)
  | [] => .ok best
  | (nm, sr, expired, te) :: rest =>
    if expired then .ok best
    else
      match te with
      | .error e => .error e
      | .ok (some q) =>
        if PyFloat.lt (.val q) best.2.1 then greedyGoT (some nm, .val q, some sr) rest
        else greedyGoT best rest
      | .ok none => greedyGoT best rest

/-- The `RESULT` lines of a run's stdout (the observable behavior the
greedy driver captures but never compares). -/
def resultLines : RunOutcome → List String
  | .timedOut => []
  | .completed _ stdout _ =>
    stdout.filter (fun line => pyStartsWith line.toList (("RESULT").toList))

/-! ## `EvolutionaryOptimizer.run_random_search` and `run_deap` -/

/-- The fitness evaluation shared by `eval_ind` in `run_deap` and the
skip-chain of `run_random_search`: apply the genome, reject falsy
candidates, run the correctness check, then time the candidate; every
rejection is `+inf` (spec §3, Individual).  The uncaught parse failure of
`apply_ops_to_source` on unparsable sources propagates. -/
def eval_ind (numbaAvailable : Bool) (baseline : List String) (src : Source)
    (fnName : String) (hotspots : Option (List String)) (genome : List Nat)
    (corrRun timeRun : RunOutcome) : Except Unit PyFloat :=
  match apply_ops_to_source numbaAvailable src fnName genome hotspots with
  | .error e => .error e
  | .ok cand =>
    if isFalsySource cand then .ok .inf
    else if !passes_correctness baseline corrRun then .ok .inf
    else
      match time_variant_and_get_time timeRun with
      | none => .ok .inf
      | some t => .ok (.val t)

/-- One iteration of `run_random_search`: the deadline flag observed at
the top of the loop, the sampled operator sequence, and the outcomes of
the candidate's correctness and timing runs. -/
structure RSStep where
  expired : Bool
  ops : List Nat
  corrRun : RunOutcome
  timeRun : RunOutcome
  deriving Repr

/-- The loop body of `run_random_search`: skip on falsy candidate, failed
correctness, or missing time; otherwise keep the strictly better
`(cand, t)`. -/
def rsGo (numbaAvailable : Bool) (baseline : List String) (src : Source)
    (fnName : String) (hotspots : Option (List String))
    (best : Option Source × PyFloat) :
    List RSStep → Except Unit (Option Source × PyFloat)
  | [] => .ok best
  | st :: rest =>
    if st.expired then .ok best
    else
      match apply_ops_to_source numbaAvailable src fnName st.ops hotspots with
      | .error e => .error e
      | .ok cand =>
        if isFalsySource cand then rsGo numbaAvailable baseline src fnName hotspots best rest
        else if !passes_correctness baseline st.corrRun then
          rsGo numbaAvailable baseline src fnName hotspots best rest
        else
          match time_variant_and_get_time st.timeRun with
          | none => rsGo numbaAvailable baseline src fnName hotspots best rest
          | some t =>
            if PyFloat.lt (.val t) best.2 then
              rsGo numbaAvailable baseline src fnName hotspots (some cand, .val t) rest
            else rsGo numbaAvailable baseline src fnName hotspots best rest

/-- `run_random_search`: `best = (None, float('inf'))` initially. -/
def run_random_search (numbaAvailable : Bool) (baseline : List String) (src : Source)
    (fnName : String) (hotspots : Option (List String)) (steps : List RSStep) :
    Except Unit (Option Source × PyFloat) :=
  rsGo numbaAvailable baseline src fnName hotspots (none, .inf) steps

/-- The fitness of one random-search iteration, for stating the
best-so-far invariant (identical to `eval_ind` on the step's data). -/
def rsFitness (numbaAvailable : Bool) (baseline : List String) (src : Source)
    (fnName : String) (hotspots : Option (List String)) (st : RSStep) :
    Except Unit PyFloat :=
  eval_ind numbaAvailable baseline src fnName hotspots st.ops st.corrRun st.timeRun

/-- One individual evaluated by the DEAP loop: its genome and the
outcomes of its correctness and timing runs. -/
structure EAInd where
  genome : List Nat
  corrRun : RunOutcome
  timeRun : RunOutcome
  deriving Repr

/-- One generation of the DEAP loop: whether the `while` condition still
held, and the population evaluated in this generation (selection,
crossover and mutation produce the next generation's population, which
appears as the next `EAGen`). -/
structure EAGen where
  running : Bool
  pop : List EAInd
  deriving Repr

/-- The best-tracking pass over one generation's individuals
(`for ind, fit in zip(pop, fitnesses)`): on a strict improvement the
candidate source is rematerialized from the genome and recorded. -/
def deapFoldInds (numbaAvailable : Bool) (baseline : List String) (src : Source)
    (fnName : String) (hotspots : Option (List String))
    (best : Option Source × PyFloat) :
    List EAInd → Except Unit (Option Source × PyFloat)
  | [] => .ok best
  | ind :: rest =>
    match eval_ind numbaAvailable baseline src fnName hotspots ind.genome
        ind.corrRun ind.timeRun with
    | .error e => .error e
    | .ok fit =>
      if PyFloat.lt fit best.2 then
        match apply_ops_to_source numbaAvailable src fnName ind.genome hotspots with
        | .error e => .error e
        | .ok cand => deapFoldInds numbaAvailable baseline src fnName hotspots (some cand, fit) rest
      else deapFoldInds numbaAvailable baseline src fnName hotspots best rest

/-- The generational `while time.time() - start < self.time_budget` loop
of `run_deap`. -/
def deapGo (numbaAvailable : Bool) (baseline : List String) (src : Source)
    (fnName : String) (hotspots : Option (List String))
    (best : Option Source × PyFloat) :
    List EAGen → Except Unit (Option Source × PyFloat)
  | [] => .ok best
  | g :: rest =>
    if !g.running then .ok best
    else
      match deapFoldInds numbaAvailable baseline src fnName hotspots best g.pop with
      | .error e => .error e
      | .ok best2 => deapGo numbaAvailable baseline src fnName hotspots best2 rest

/-- `run_deap` (DEAP available): `best = (None, float('inf'))` initially. -/
def run_deap (numbaAvailable : Bool) (baseline : List String) (src : Source)
    (fnName : String) (hotspots : Option (List String)) (gens : List EAGen) :
    Except Unit (Option Source × PyFloat) :=
  deapGo numbaAvailable baseline src fnName hotspots (none, .inf) gens

/-! ## `profiler.detect_hotspot_functions`

The profile statistics are external data: one entry per function key
`(filename, line, name)` with counts `(cc, nc, tt, ct, callers)`, in the
insertion order of the loaded stats dictionary.  `ps.sort_stats('cumulative')`
only computes the sorted key list `fcn_list`; the code then iterates
`ps.stats.items()`, i.e. the UNSORTED dictionary. -/

/-- One entry of the loaded (and directory-stripped) profile table. -/
structure ProfEntry where
  filename : String
  line : Nat
  func_name : String
  cc : Nat
  nc : Nat
  tt : ℚ
  ct : ℚ
  deriving DecidableEq, Repr

/-- `Path(filename).name`. -/
def baseName (s : String) : String :=
  String.mk ((s.toList.reverse.takeWhile (fun c => c ≠ '/')).reverse)

/-- Descending insertion by cumulative time (models the ordering
`sort_stats('cumulative')` stores in `fcn_list`). -/
def insertByCumulative (e : ProfEntry) : List ProfEntry → List ProfEntry
  | [] => [e]
  | x :: xs => if x.ct ≤ e.ct then e :: x :: xs else x :: insertByCumulative e xs

/-- The sorted key list `fcn_list` computed by `sort_stats('cumulative')`
(computed by the code but never consulted by the iteration). -/
def sortedByCumulative : List ProfEntry → List ProfEntry
  | [] => []
  | x :: xs => insertByCumulative x (sortedByCumulative xs)

/-- The `for func, stat in ps.stats.items()` loop with its `count`
cut-off: keep entries whose (truthy) filename has the target file's base
name, or whose name equals the target function's. -/
def hotspotLoop (targetBase fnName : String) (topN : Nat) :
    List ProfEntry → Nat → List (String × Nat)
  | [], _ => []
  | e :: rest, count =>
    if count ≥ topN then []
    else if e.filename ≠ ("") ∧ baseName e.filename = targetBase then
      (e.func_name, e.nc) :: hotspotLoop targetBase fnName topN rest (count + 1)
    else if e.func_name = fnName then
      (e.func_name, e.nc) :: hotspotLoop targetBase fnName topN rest (count + 1)
    else hotspotLoop targetBase fnName topN rest count

/-- `profiler.detect_hotspot_functions`, given the loaded stats table. -/
def detect_hotspot_functions (stats : List ProfEntry) (targetBase fnName : String)
    (topN : Nat) : List (String × Nat) :=
  hotspotLoop targetBase fnName topN stats 0

/-- The iterations the random-search loop actually evaluates: the prefix
before the soft deadline first fires. -/
def executedRS (steps : List RSStep) : List RSStep :=
  steps.takeWhile (fun st => !st.expired)

/-- The generations the DEAP loop actually evaluates. -/
def executedGens (gens : List EAGen) : List EAGen :=
  gens.takeWhile (fun g => g.running)

/-- One loop body of `run_random_search` as a best-updating step. -/
def rsStepBest (numbaAvailable : Bool) (baseline : List String) (src : Source)
    (fnName : String) (hotspots : Option (List String))
    (b : Option Source × PyFloat) (st : RSStep) :
    Except Unit (Option Source × PyFloat) :=
  match apply_ops_to_source numbaAvailable src fnName st.ops hotspots with
  | .error e => .error e
  | .ok cand =>
    if isFalsySource cand then .ok b
    else if !passes_correctness baseline st.corrRun then .ok b
    else
      match time_variant_and_get_time st.timeRun with
      | none => .ok b
      | some t => if PyFloat.lt (.val t) b.2 then .ok (some cand, .val t) else .ok b

end Evoc

namespace Evoc

/-! ## Helper lemmas -/

theorem PStmts.toList_ofList (l : List PStmt) : (PStmts.ofList l).toList = l := by
  induction l with
  | nil => rfl
  | cons s rest ih => simp [PStmts.ofList, PStmts.toList, ih]

theorem PStmts.ofList_toList : ∀ (b : PStmts), PStmts.ofList b.toList = b
  | .nil => rfl
  | .cons s rest => by simp [PStmts.toList, PStmts.ofList, PStmts.ofList_toList rest]

theorem addDec_lruEvolution_none (tree : Module) (fn : String) :
    add_decorator_to_function (.parsed tree) fn lruDecEvolution = .ok none := by
  have h2 : specDecorator? lruDecEvolution = none := by decide
  have h1 : specImports lruDecEvolution = [] := by decide
  simp [add_decorator_to_function, h1, h2]

theorem applyOp_memoize_noop (numba : Bool) (fn : String) (hs : Option (List String))
    (m : Module) : applyOp numba fn hs (.parsed m) 1 = .ok (.parsed m) := by
  simp [applyOp, OPS, addDec_lruEvolution_none]

/-! ## Claims -/

/-- Claim C1: the claim states that a baseline run that fails to execute at all
(child exits without producing results) makes `EvolutionaryOptimizer`
construction raise.  In the code `_run_source_and_get_outputs` returns
`None` only on `TimeoutExpired`; a crashed child (here: exit code 1,
empty stdout) yields `[]`, so `computeBaseline` records an empty baseline
and the run continues.  Only a timeout is fatal. -/
theorem C1_crashed_baseline_recorded_not_fatal :
    computeBaseline (.completed 1 [] [("ImportError: cannot import name 'entryFn'")])
      = .ok []
    ∧ computeBaseline .timedOut = .error ("Failed to compute baseline outputs") := by
  exact ⟨rfl, rfl⟩

/-- Counterexample for claim C4: a candidate whose child process crashes (exit code
1) after printing a matching `OUT` line passes `_passes_correctness`,
refuting "returns true iff the candidate's sandboxed execution succeeds
and ... ; any crash ... yields false". -/
theorem C4_counterexample :
    execSucceeds (.completed 1 [("OUT 3 7")] [("Traceback (most recent call last):")]) = false
    ∧ passes_correctness [("7")]
        (.completed 1 [("OUT 3 7")] [("Traceback (most recent call last):")]) = true := by
  exact ⟨rfl, by decide⟩

/-- Claim C4, amended: `_passes_correctness` returns true iff the candidate run
did not time out and the ordered parsed `OUT` payload sequence equals the
recorded baseline, element for element; the exit status is ignored.  Any
timeout or mismatch yields false, and the check is a total function. -/
theorem C4_passes_correctness_iff (baseline : List String) (o : RunOutcome) :
    passes_correctness baseline o = true ↔
      ∃ rc stdout stderr, o = .completed rc stdout stderr
        ∧ stdout.filterMap parseOutLine = baseline := by
  cases o with
  | timedOut => simp [passes_correctness, run_source_and_get_outputs]
  | completed rc stdout stderr =>
    simp only [passes_correctness, run_source_and_get_outputs, beq_iff_eq]
    constructor
    · intro h
      exact ⟨rc, stdout, stderr, rfl, h⟩
    · rintro ⟨rc1, s1, e1, heq, h⟩
      cases heq
      exact h

/-- Counterexample for claim C6: on syntactically invalid input the annotation rule
`add_decorator_to_function` does NOT catch the parse failure —
`ast.parse(source)` is outside any `try`, so the exception propagates,
refuting "each transform rule ... catches the parse failure and reports
not-applicable". -/
theorem C6_counterexample :
    add_decorator_to_function (.invalid ("def f(:")) ("f") lruDecCore = .error () := rfl

/-- Claim C6, amended: on unparsable input the loop-to-comprehension rewrite and
`dedupe_source` catch the parse failure (not-applicable / unchanged), but
`add_decorator_to_function` propagates it to its caller. -/
theorem C6_parse_failure_handling (text fnName spec : String) :
    try_apply_transform (.invalid text) = none
    ∧ dedupe_source (.invalid text) = .invalid text
    ∧ add_decorator_to_function (.invalid text) fnName spec = .error () := by
  exact ⟨rfl, rfl, rfl⟩

/-- Claim C3: the claim states that materializing a genome containing the
`MemoizeFunction` index (1) with an open gate attaches the `lru_cache`
decorator and its import.  In `evolution.py` the decorator spec is written
with the escape `\\n`, so the whole spec is a single line starting with
`from ` whose parse fails; no decorator line is recognized and
`add_decorator_to_function` returns `None`.  Hence the memoize operator
NEVER changes the source (first conjunct, for every parseable module,
every gate state).  The greedy path in `core.py` uses the same spec with a
genuine newline, and there the decorator and import ARE attached (second
conjunct), confirming the escape is a slip. -/
theorem C3_memoize_op_is_noop :
    (∀ (m : Module) (fnName : String) (numbaAvailable : Bool)
        (hotspots : Option (List String)),
      apply_ops_to_source numbaAvailable (.parsed m) fnName [1] hotspots
        = .ok (.parsed m))
    ∧ add_decorator_to_function
        (.parsed [.functionDef ("entryFn") [("x")] [] (.cons (.ret (some (.name ("x")))) .nil)])
        ("entryFn") lruDecCore
      = .ok (some (.parsed [
          .importFrom ("functools") [("lru_cache")],
          .functionDef ("entryFn") [("x")]
            [.call (.name ("lru_cache")) .nil (.cons ("maxsize") .constNone .nil)]
            (.cons (.ret (some (.name ("x")))) .nil)])) := by
  constructor
  · intro m fnName numbaAvailable hotspots
    simp [apply_ops_to_source, List.foldlM, applyOp_memoize_noop]
  · rfl

/-- Claim C7: the claim (and the function's own docstring) states the returned
list is ordered by descending cumulative cost.  The code calls
`ps.sort_stats('cumulative')` — which only computes the sorted key list
`fcn_list` — and then iterates the unsorted dictionary `ps.stats`.  On a
stats table holding `g` (cumulative 1) before `f` (cumulative 2), both
defined in the target file, the result lists `g` first although its
cumulative cost is strictly smaller; the computed-but-unused sorted order
puts `f` first. -/
theorem C7_hotspots_not_sorted_by_cumulative :
    detect_hotspot_functions
      [⟨("t.py"), 1, ("g"), 1, 5, 0, 1⟩, ⟨("t.py"), 9, ("f"), 1, 7, 0, 2⟩]
      ("t.py") ("f") 3
      = [(("g"), 5), (("f"), 7)]
    ∧ sortedByCumulative
        [⟨("t.py"), 1, ("g"), 1, 5, 0, 1⟩, ⟨("t.py"), 9, ("f"), 1, 7, 0, 2⟩]
      = [⟨("t.py"), 9, ("f"), 1, 7, 0, 2⟩, ⟨("t.py"), 1, ("g"), 1, 5, 0, 1⟩]
    ∧ ((1 : ℚ) < 2) := by
  refine ⟨by decide, by decide, by norm_num⟩

end Evoc

namespace Evoc

/-! ### C2: the greedy path has no correctness gate -/

/-- Counterexample for claim C2: in the greedy driver loop a variant whose
`RESULT` output differs from the original's is selected as best, because
selection consults only the parsed `TIME` value — refuting "a variant
whose outputs differ from the baseline is never returned as the best
candidate". -/
theorem C2_counterexample :
    greedy_best [
      ⟨("original"),
        .parsed [.functionDef ("f") [("x")] [] (.cons (.ret (some (.name ("x")))) .nil)],
        false, .completed 0 [("RESULT 5"), ("TIME 1.0")] []⟩,
      ⟨("bad"),
        .parsed [.functionDef ("f") [("x")] [] (.cons (.ret (some (.constInt 999))) .nil)],
        false, .completed 0 [("RESULT 999"), ("TIME 0.5")] []⟩]
    = .ok (some ("bad"), .val (mkRat 1 2),
        some (.parsed [.functionDef ("f") [("x")] [] (.cons (.ret (some (.constInt 999))) .nil)]))
    ∧ resultLines (.completed 0 [("RESULT 999"), ("TIME 0.5")] [])
        ≠ resultLines (.completed 0 [("RESULT 5"), ("TIME 1.0")] []) := by
  constructor
  · decide
  · decide

/-- Claim C2, amended: in the greedy search path no behavioral comparison
against the original occurs; the selection loop factors through the
projection of each step to its parsed `TIME` value, so only measured
times feed selection, and output-divergent variants can win. -/
theorem C2_greedy_selection_factors_through_times
    (best : Option String × PyFloat × Option Source) (steps : List GreedyStep) :
    greedyGo best steps = greedyGoT best (steps.map greedyTimeView) := by
  induction steps generalizing best with
  | nil => rfl
  | cons st rest ih =>
    simp only [List.map_cons, greedyGo, greedyGoT, greedyTimeView]
    by_cases hexp : st.expired
    · simp [hexp]
    · simp only [hexp, Bool.false_eq_true, if_false]
      cases hw : write_variant_and_run st.outcome with
      | error e => simp [Except.map]
      | ok r =>
        cases hr : r.t with
        | none => simp [Except.map, hr, ih]
        | some q => simp [Except.map, hr, ih]

/-! ### C9: dedupe -/

theorem dedupeDecsGo_idem (l : List PExpr) : ∀ (seen : List PExpr),
    dedupeDecsGo seen (dedupeDecsGo seen l) = dedupeDecsGo seen l := by
  induction l with
  | nil => intro seen; rfl
  | cons d rest ih =>
    intro seen
    by_cases h : d ∈ seen
    · simp [dedupeDecsGo, h, ih]
    · simp [dedupeDecsGo, h, ih]

theorem dedupeBody_idem (l : List PStmt) : ∀ (seen : List PStmt),
    dedupeBody seen (dedupeBody seen l) = dedupeBody seen l := by
  induction l with
  | nil => intro seen; rfl
  | cons n rest ih =>
    intro seen
    cases n with
    | importS ms =>
      by_cases h : (PStmt.importS ms) ∈ seen <;> simp [dedupeBody, isImportStmt, h, ih]
    | importFrom md ns =>
      by_cases h : (PStmt.importFrom md ns) ∈ seen <;>
        simp [dedupeBody, isImportStmt, h, ih]
    | functionDef nm args decs body =>
      simp [dedupeBody, isImportStmt, dedupeDecsGo_idem, ih]
    | assign ts v => simp [dedupeBody, isImportStmt, ih]
    | forS t i b e => simp [dedupeBody, isImportStmt, ih]
    | exprS v => simp [dedupeBody, isImportStmt, ih]
    | ret v => simp [dedupeBody, isImportStmt, ih]
    | passS => simp [dedupeBody, isImportStmt, ih]

/-- Claim C9: `dedupe` is idempotent on every source (first conjunct), and on a
module with a duplicated top-level import and a duplicated decorator it
removes the later duplicates, keeping the first occurrences (second
conjunct). -/
theorem C9_dedupe_idempotent (s : Source) :
    dedupe_source (dedupe_source s) = dedupe_source s
    ∧ dedupe_source (.parsed [
        .importFrom ("functools") [("lru_cache")],
        .passS,
        .importFrom ("functools") [("lru_cache")],
        .functionDef ("f") [] [.name ("a"), .name ("b"), .name ("a")] (.cons .passS .nil)])
      = .parsed [
        .importFrom ("functools") [("lru_cache")],
        .passS,
        .functionDef ("f") [] [.name ("a"), .name ("b")] (.cons .passS .nil)] := by
  constructor
  · cases s with
    | invalid t => rfl
    | parsed m => simp [dedupe_source, dedupeBody_idem]
  · decide

/-! ### C5: the loop-to-comprehension rewrite -/

theorem transformStmt_assign (ts : List PExpr) (v : PExpr) :
    transformStmt (.assign ts v) = some (.assign ts v) := rfl

theorem transformStmt_ret (v : Option PExpr) :
    transformStmt (.ret v) = some (.ret v) := rfl

theorem transformStmt_exprS (v : PExpr) :
    transformStmt (.exprS v) = some (.exprS v) := rfl

theorem transformStmts_nil : transformStmts .nil = some .nil := rfl

end Evoc

namespace Evoc

theorem transformStmt_functionDef (nm : String) (args : List String)
    (decs : List PExpr) (body : PStmts) :
    transformStmt (.functionDef nm args decs body) =
      (transformStmts body).bind fun b1 =>
        (rewriteBody b1.toList).bind fun b2 =>
          some (.functionDef nm args decs (PStmts.ofList b2)) := rfl

theorem transformStmt_forS (t i : PExpr) (b e : PStmts) :
    transformStmt (.forS t i b e) =
      (transformStmts b).bind fun b1 =>
        (transformStmts e).bind fun e1 =>
          some (.forS t i b1 e1) := rfl

theorem transformStmts_cons (s : PStmt) (rest : PStmts) :
    transformStmts (.cons s rest) =
      (transformStmt s).bind fun s1 =>
        (transformStmts rest).bind fun r1 =>
          some (.cons s1 r1) := rfl

/-- Claim C5: the loop-to-comprehension transform on the exact pattern
`N = []` followed by `for t in it: N.append(e)` rewrites the two
statements into `N = [e for t in it]` (first conjunct, for every function
context, accumulator name, loop target, iterable and element expression);
a two-statement loop body, a mismatched accumulator name, or nested
control flow as the loop body leaves the source unchanged (remaining
conjuncts). -/
theorem C5_loop_to_comprehension
    (fname : String) (fargs : List String) (decs : List PExpr)
    (n m : String) (tgt iter elt : PExpr) (kws : PKws)
    (e1 e2 e3 tgt2 iter2 : PExpr) (hne : m ≠ n) :
    try_apply_transform (.parsed [.functionDef fname fargs decs (PStmts.ofList
        [.assign [.name n] (.listLit .nil),
         .forS tgt iter (PStmts.ofList
           [.exprS (.call (.attribute (.name n) ("append")) (.cons elt .nil) kws)]) .nil,
         .ret (some (.name n))])])
      = some (.parsed [.functionDef fname fargs decs (PStmts.ofList
          [.assign [.name n] (.listComp elt tgt iter),
           .ret (some (.name n))])])
    ∧
    try_apply_transform (.parsed [.functionDef fname fargs decs (PStmts.ofList
        [.assign [.name n] (.listLit .nil),
         .forS tgt iter (PStmts.ofList [.exprS e1, .exprS e2]) .nil,
         .ret (some (.name n))])])
      = some (.parsed [.functionDef fname fargs decs (PStmts.ofList
          [.assign [.name n] (.listLit .nil),
           .forS tgt iter (PStmts.ofList [.exprS e1, .exprS e2]) .nil,
           .ret (some (.name n))])])
    ∧
    try_apply_transform (.parsed [.functionDef fname fargs decs (PStmts.ofList
        [.assign [.name n] (.listLit .nil),
         .forS tgt iter (PStmts.ofList
           [.exprS (.call (.attribute (.name m) ("append")) (.cons elt .nil) kws)]) .nil,
         .ret (some (.name n))])])
      = some (.parsed [.functionDef fname fargs decs (PStmts.ofList
          [.assign [.name n] (.listLit .nil),
           .forS tgt iter (PStmts.ofList
             [.exprS (.call (.attribute (.name m) ("append")) (.cons elt .nil) kws)]) .nil,
           .ret (some (.name n))])])
    ∧
    try_apply_transform (.parsed [.functionDef fname fargs decs (PStmts.ofList
        [.assign [.name n] (.listLit .nil),
         .forS tgt iter (PStmts.ofList
           [.forS tgt2 iter2 (PStmts.ofList [.exprS e3]) .nil]) .nil,
         .ret (some (.name n))])])
      = some (.parsed [.functionDef fname fargs decs (PStmts.ofList
          [.assign [.name n] (.listLit .nil),
           .forS tgt iter (PStmts.ofList
             [.forS tgt2 iter2 (PStmts.ofList [.exprS e3]) .nil]) .nil,
           .ret (some (.name n))])]) := by
  refine ⟨?_, ?_, ?_, ?_⟩ <;>
    simp [try_apply_transform, transformModule, PStmts.ofList,
      transformStmt_functionDef, transformStmt_forS, transformStmts_cons,
      transformStmts_nil, transformStmt_assign, transformStmt_ret,
      transformStmt_exprS, PStmts.toList, rewriteBody, rewriteBodyGo,
      patternStep, hne]

/-- Witness for C5 at a concrete program (`out = []`,
`for x in xs: out.append(x)`, `return out`, mismatch name `acc`). -/
theorem C5_loop_to_comprehension_witness :
    try_apply_transform (.parsed [.functionDef ("f") [("xs")] [] (PStmts.ofList
        [.assign [.name ("out")] (.listLit .nil),
         .forS (.name ("x")) (.name ("xs")) (PStmts.ofList
           [.exprS (.call (.attribute (.name ("out")) ("append"))
             (.cons (.name ("x")) .nil) .nil)]) .nil,
         .ret (some (.name ("out")))])])
      = some (.parsed [.functionDef ("f") [("xs")] [] (PStmts.ofList
          [.assign [.name ("out")] (.listComp (.name ("x")) (.name ("x")) (.name ("xs"))),
           .ret (some (.name ("out")))])]) :=
  (C5_loop_to_comprehension ("f") [("xs")] [] ("out") ("acc") (.name ("x"))
    (.name ("xs")) (.name ("x")) .nil (.name ("a")) (.name ("b")) (.name ("c"))
    (.name ("y")) (.name ("ys")) (by decide)).1

end Evoc

namespace Evoc

/-! ### C10: best-so-far invariant of both search loops -/

theorem PyFloat.le_refl (a : PyFloat) : a.le a = true := by
  cases a <;> simp [PyFloat.le]

theorem PyFloat.le_trans {a b c : PyFloat} (h1 : a.le b = true) (h2 : b.le c = true) :
    a.le c = true := by
  cases a <;> cases b <;> cases c <;> simp_all [PyFloat.le]
  exact h1.trans h2

theorem PyFloat.le_of_lt {a b : PyFloat} (h : a.lt b = true) : a.le b = true := by
  cases a <;> cases b <;> simp_all [PyFloat.lt, PyFloat.le]
  exact h.le

theorem PyFloat.le_of_not_lt {a b : PyFloat} (h : ¬ a.lt b = true) : b.le a = true := by
  cases a <;> cases b <;> simp_all [PyFloat.lt, PyFloat.le]

theorem PyFloat.le_inf (a : PyFloat) : a.le .inf = true := by
  cases a <;> rfl

theorem PyFloat.eq_inf_of_inf_le {a : PyFloat} (h : PyFloat.le .inf a = true) :
    a = .inf := by
  cases a <;> simp_all [PyFloat.le]

theorem rsGo_cons (numbaAvailable : Bool) (baseline : List String) (src : Source)
    (fnName : String) (hotspots : Option (List String))
    (b0 : Option Source × PyFloat) (st : RSStep) (rest : List RSStep) :
    rsGo numbaAvailable baseline src fnName hotspots b0 (st :: rest) =
      if st.expired then .ok b0
      else
        match rsStepBest numbaAvailable baseline src fnName hotspots b0 st with
        | .error e => .error e
        | .ok b1 => rsGo numbaAvailable baseline src fnName hotspots b1 rest := by
  by_cases hexp : st.expired
  · simp [rsGo, hexp]
  · simp only [rsGo, hexp, Bool.false_eq_true, if_false]
    cases happ : apply_ops_to_source numbaAvailable src fnName st.ops hotspots with
    | error e => simp [rsStepBest, happ]
    | ok cand =>
      by_cases hf : isFalsySource cand
      · simp [rsStepBest, happ, hf]
      · by_cases hp : passes_correctness baseline st.corrRun
        · cases ht : time_variant_and_get_time st.timeRun with
          | none => simp [rsStepBest, happ, hf, hp, ht]
          | some t =>
            by_cases hlt : PyFloat.lt (.val t) b0.2 <;>
              simp [rsStepBest, happ, hf, hp, ht, hlt]
        · simp [rsStepBest, happ, hf, hp]

theorem rsStepBest_spec (numbaAvailable : Bool) (baseline : List String) (src : Source)
    (fnName : String) (hotspots : Option (List String))
    (b : Option Source × PyFloat) (st : RSStep) (b1 : Option Source × PyFloat)
    (h : rsStepBest numbaAvailable baseline src fnName hotspots b st = .ok b1) :
    b1.2.le b.2 = true
    ∧ (∀ f, rsFitness numbaAvailable baseline src fnName hotspots st = .ok f →
        b1.2.le f = true)
    ∧ (∃ f, rsFitness numbaAvailable baseline src fnName hotspots st = .ok f)
    ∧ (b1 = b ∨ (b1.1.isSome ∧ b1.2 ≠ .inf ∧
        rsFitness numbaAvailable baseline src fnName hotspots st = .ok b1.2)) := by
  cases happ : apply_ops_to_source numbaAvailable src fnName st.ops hotspots with
  | error e => simp [rsStepBest, happ] at h
  | ok cand =>
    simp only [rsStepBest, happ] at h
    simp only [rsFitness, eval_ind, happ]
    by_cases hf : isFalsySource cand
    · simp only [hf, if_true] at h ⊢
      cases h
      exact ⟨PyFloat.le_refl _, fun f hh => by cases hh; exact PyFloat.le_inf _,
        ⟨.inf, rfl⟩, Or.inl rfl⟩
    · by_cases hp : passes_correctness baseline st.corrRun
      · simp only [hf, hp, Bool.not_true, Bool.false_eq_true, if_false] at h ⊢
        cases ht : time_variant_and_get_time st.timeRun with
        | none =>
          simp only [ht] at h ⊢
          cases h
          exact ⟨PyFloat.le_refl _, fun f hh => by cases hh; exact PyFloat.le_inf _,
            ⟨.inf, rfl⟩, Or.inl rfl⟩
        | some t =>
          simp only [ht] at h ⊢
          by_cases hlt : PyFloat.lt (.val t) b.2
          · simp only [hlt, if_true] at h
            cases h
            refine ⟨PyFloat.le_of_lt hlt, fun f hh => by cases hh; exact PyFloat.le_refl _,
              ⟨.val t, rfl⟩, Or.inr ⟨rfl, by simp, rfl⟩⟩
          · simp only [hlt, if_false] at h
            cases h
            exact ⟨PyFloat.le_refl _, fun f hh => by cases hh; exact PyFloat.le_of_not_lt hlt,
              ⟨.val t, rfl⟩, Or.inl rfl⟩
      · simp only [hf, hp, Bool.not_false, if_true] at h ⊢
        cases h
        exact ⟨PyFloat.le_refl _, fun f hh => by cases hh; exact PyFloat.le_inf _,
          ⟨.inf, rfl⟩, Or.inl rfl⟩

theorem executedRS_cons_of_not_expired {st : RSStep} (rest : List RSStep)
    (h : ¬ st.expired = true) : executedRS (st :: rest) = st :: executedRS rest := by
  simp [executedRS, List.takeWhile, h]

theorem rsGo_spec (numbaAvailable : Bool) (baseline : List String) (src : Source)
    (fnName : String) (hotspots : Option (List String)) (steps : List RSStep) :
    ∀ (b0 res : Option Source × PyFloat),
      rsGo numbaAvailable baseline src fnName hotspots b0 steps = .ok res →
      res.2.le b0.2 = true
      ∧ (∀ st ∈ executedRS steps,
          (∃ f, rsFitness numbaAvailable baseline src fnName hotspots st = .ok f)
          ∧ ∀ f, rsFitness numbaAvailable baseline src fnName hotspots st = .ok f →
              res.2.le f = true)
      ∧ (res = b0 ∨ (res.1.isSome ∧ res.2 ≠ .inf ∧
          ∃ st ∈ executedRS steps,
            rsFitness numbaAvailable baseline src fnName hotspots st = .ok res.2)) := by
  induction steps with
  | nil =>
    intro b0 res h
    simp only [rsGo] at h
    cases h
    exact ⟨PyFloat.le_refl _, by simp [executedRS], Or.inl rfl⟩
  | cons st rest ih =>
    intro b0 res h
    rw [rsGo_cons] at h
    by_cases hexp : st.expired
    · rw [if_pos hexp] at h
      cases h
      refine ⟨PyFloat.le_refl _, ?_, Or.inl rfl⟩
      intro s hs
      simp [executedRS, List.takeWhile, hexp] at hs
    · rw [if_neg hexp] at h
      cases hstep : rsStepBest numbaAvailable baseline src fnName hotspots b0 st with
      | error e => rw [hstep] at h; cases h
      | ok b1 =>
        rw [hstep] at h
        obtain ⟨hle1, hbound1, hex1, hcase1⟩ :=
          rsStepBest_spec numbaAvailable baseline src fnName hotspots b0 st b1 hstep
        obtain ⟨hle2, hbound2, hcase2⟩ := ih b1 res h
        rw [executedRS_cons_of_not_expired rest hexp]
        refine ⟨PyFloat.le_trans hle2 hle1, ?_, ?_⟩
        · intro s hs
          rw [List.mem_cons] at hs
          rcases hs with rfl | hs
          · exact ⟨hex1, fun f hf => PyFloat.le_trans hle2 (hbound1 f hf)⟩
          · exact hbound2 s hs
        · rcases hcase2 with hres | ⟨hsome, hninf, s, hsmem, hsfit⟩
          · subst hres
            rcases hcase1 with hres1 | ⟨hsome1, hninf1, hfit1⟩
            · exact Or.inl hres1
            · exact Or.inr ⟨hsome1, hninf1, st, List.mem_cons_self _ _, hfit1⟩
          · exact Or.inr ⟨hsome, hninf, s, List.mem_cons_of_mem _ hsmem, hsfit⟩

end Evoc

namespace Evoc

theorem deapFoldInds_spec (numbaAvailable : Bool) (baseline : List String) (src : Source)
    (fnName : String) (hotspots : Option (List String)) (pop : List EAInd) :
    ∀ (b0 res : Option Source × PyFloat),
      deapFoldInds numbaAvailable baseline src fnName hotspots b0 pop = .ok res →
      res.2.le b0.2 = true
      ∧ (∀ ind ∈ pop,
          (∃ f, eval_ind numbaAvailable baseline src fnName hotspots ind.genome
              ind.corrRun ind.timeRun = .ok f)
          ∧ ∀ f, eval_ind numbaAvailable baseline src fnName hotspots ind.genome
              ind.corrRun ind.timeRun = .ok f → res.2.le f = true)
      ∧ (res = b0 ∨ (res.1.isSome ∧ res.2 ≠ .inf ∧
          ∃ ind ∈ pop, eval_ind numbaAvailable baseline src fnName hotspots ind.genome
            ind.corrRun ind.timeRun = .ok res.2)) := by
  induction pop with
  | nil =>
    intro b0 res h
    simp only [deapFoldInds] at h
    cases h
    exact ⟨PyFloat.le_refl _, by simp, Or.inl rfl⟩
  | cons ind rest ih =>
    intro b0 res h
    simp only [deapFoldInds] at h
    cases heval : eval_ind numbaAvailable baseline src fnName hotspots ind.genome
        ind.corrRun ind.timeRun with
    | error e => simp only [heval] at h; cases h
    | ok fit =>
      simp only [heval] at h
      by_cases hlt : PyFloat.lt fit b0.2
      · rw [if_pos hlt] at h
        cases happ : apply_ops_to_source numbaAvailable src fnName ind.genome hotspots with
        | error e => simp only [happ] at h; cases h
        | ok cand =>
          simp only [happ] at h
          obtain ⟨hle2, hbound2, hcase2⟩ := ih (some cand, fit) res h
          refine ⟨PyFloat.le_trans hle2 (PyFloat.le_of_lt hlt), ?_, ?_⟩
          · intro i hi
            rw [List.mem_cons] at hi
            rcases hi with rfl | hi
            · exact ⟨⟨fit, heval⟩, fun f hf => by
                rw [heval] at hf; cases hf; exact hle2⟩
            · exact hbound2 i hi
          · rcases hcase2 with hres | ⟨hsome, hninf, i, himem, hifit⟩
            · subst hres
              refine Or.inr ⟨by simp, ?_, ind, List.mem_cons_self _ _, heval⟩
              cases fit with
              | inf => simp [PyFloat.lt] at hlt
              | val q => simp
            · exact Or.inr ⟨hsome, hninf, i, List.mem_cons_of_mem _ himem, hifit⟩
      · rw [if_neg hlt] at h
        obtain ⟨hle2, hbound2, hcase2⟩ := ih b0 res h
        refine ⟨hle2, ?_, ?_⟩
        · intro i hi
          rw [List.mem_cons] at hi
          rcases hi with rfl | hi
          · exact ⟨⟨fit, heval⟩, fun f hf => by
              rw [heval] at hf; cases hf
              exact PyFloat.le_trans hle2 (PyFloat.le_of_not_lt hlt)⟩
          · exact hbound2 i hi
        · rcases hcase2 with hres | ⟨hsome, hninf, i, himem, hifit⟩
          · exact Or.inl hres
          · exact Or.inr ⟨hsome, hninf, i, List.mem_cons_of_mem _ himem, hifit⟩

theorem executedGens_cons_of_running {g : EAGen} (rest : List EAGen)
    (h : g.running = true) : executedGens (g :: rest) = g :: executedGens rest := by
  simp [executedGens, List.takeWhile, h]

theorem deapGo_spec (numbaAvailable : Bool) (baseline : List String) (src : Source)
    (fnName : String) (hotspots : Option (List String)) (gens : List EAGen) :
    ∀ (b0 res : Option Source × PyFloat),
      deapGo numbaAvailable baseline src fnName hotspots b0 gens = .ok res →
      res.2.le b0.2 = true
      ∧ (∀ g ∈ executedGens gens, ∀ ind ∈ g.pop,
          (∃ f, eval_ind numbaAvailable baseline src fnName hotspots ind.genome
              ind.corrRun ind.timeRun = .ok f)
          ∧ ∀ f, eval_ind numbaAvailable baseline src fnName hotspots ind.genome
              ind.corrRun ind.timeRun = .ok f → res.2.le f = true)
      ∧ (res = b0 ∨ (res.1.isSome ∧ res.2 ≠ .inf ∧
          ∃ g ∈ executedGens gens, ∃ ind ∈ g.pop,
            eval_ind numbaAvailable baseline src fnName hotspots ind.genome
              ind.corrRun ind.timeRun = .ok res.2)) := by
  induction gens with
  | nil =>
    intro b0 res h
    simp only [deapGo] at h
    cases h
    exact ⟨PyFloat.le_refl _, by simp [executedGens], Or.inl rfl⟩
  | cons g rest ih =>
    intro b0 res h
    simp only [deapGo] at h
    by_cases hrun : g.running
    · rw [if_neg (by simp [hrun])] at h
      cases hfold : deapFoldInds numbaAvailable baseline src fnName hotspots b0 g.pop with
      | error e => rw [hfold] at h; cases h
      | ok b1 =>
        rw [hfold] at h
        obtain ⟨hle1, hbound1, hcase1⟩ :=
          deapFoldInds_spec numbaAvailable baseline src fnName hotspots g.pop b0 b1 hfold
        obtain ⟨hle2, hbound2, hcase2⟩ := ih b1 res h
        rw [executedGens_cons_of_running rest hrun]
        refine ⟨PyFloat.le_trans hle2 hle1, ?_, ?_⟩
        · intro gg hgg
          rw [List.mem_cons] at hgg
          rcases hgg with rfl | hgg
          · intro ind hind
            obtain ⟨hex, hbd⟩ := hbound1 ind hind
            exact ⟨hex, fun f hf => PyFloat.le_trans hle2 (hbd f hf)⟩
          · exact hbound2 gg hgg
        · rcases hcase2 with hres | ⟨hsome, hninf, gg, hggmem, ind, hindmem, hifit⟩
          · subst hres
            rcases hcase1 with hres1 | ⟨hsome1, hninf1, ind, hindmem, hifit⟩
            · exact Or.inl hres1
            · exact Or.inr ⟨hsome1, hninf1, g, List.mem_cons_self _ _, ind, hindmem, hifit⟩
          · exact Or.inr ⟨hsome, hninf, gg, List.mem_cons_of_mem _ hggmem, ind, hindmem, hifit⟩
    · rw [if_pos (by simp [hrun])] at h
      cases h
      refine ⟨PyFloat.le_refl _, ?_, Or.inl rfl⟩
      intro gg hgg
      simp [executedGens, List.takeWhile, hrun] at hgg

end Evoc

namespace Evoc

/-- Claim C10: in both search loops of the Evolutionary Search Engine, if the
run returns a result, its best fitness is ≤ every individual fitness
evaluated across all executed iterations (random search) respectively all
executed generations (genetic loop), and the result is `(None, +inf)`
exactly when every evaluated fitness was `+inf`, i.e. when no finite
fitness was observed. -/
theorem C10_search_returns_minimum (numbaAvailable : Bool) (baseline : List String)
    (src : Source) (fnName : String) (hotspots : Option (List String))
    (steps : List RSStep) (gens : List EAGen)
    (rsRes eaRes : Option Source × PyFloat)
    (h1 : run_random_search numbaAvailable baseline src fnName hotspots steps = .ok rsRes)
    (h2 : run_deap numbaAvailable baseline src fnName hotspots gens = .ok eaRes) :
    (∀ st ∈ executedRS steps, ∀ f,
        rsFitness numbaAvailable baseline src fnName hotspots st = .ok f →
        rsRes.2.le f = true)
    ∧ (rsRes = (none, .inf) ↔
        ∀ st ∈ executedRS steps,
          rsFitness numbaAvailable baseline src fnName hotspots st = .ok .inf)
    ∧ (∀ g ∈ executedGens gens, ∀ ind ∈ g.pop, ∀ f,
        eval_ind numbaAvailable baseline src fnName hotspots ind.genome
          ind.corrRun ind.timeRun = .ok f →
        eaRes.2.le f = true)
    ∧ (eaRes = (none, .inf) ↔
        ∀ g ∈ executedGens gens, ∀ ind ∈ g.pop,
          eval_ind numbaAvailable baseline src fnName hotspots ind.genome
            ind.corrRun ind.timeRun = .ok .inf) := by
  obtain ⟨hle1, hbound1, hcase1⟩ :=
    rsGo_spec numbaAvailable baseline src fnName hotspots steps (none, .inf) rsRes h1
  obtain ⟨hle2, hbound2, hcase2⟩ :=
    deapGo_spec numbaAvailable baseline src fnName hotspots gens (none, .inf) eaRes h2
  refine ⟨?_, ⟨?_, ?_⟩, ?_, ⟨?_, ?_⟩⟩
  · intro st hst f hf
    exact (hbound1 st hst).2 f hf
  · intro hres st hst
    obtain ⟨⟨f, hf⟩, hbd⟩ := hbound1 st hst
    have hlef := hbd f hf
    rw [hres] at hlef
    rw [PyFloat.eq_inf_of_inf_le hlef] at hf
    exact hf
  · intro hall
    rcases hcase1 with hres | ⟨hsome, hninf, st, hstmem, hstfit⟩
    · exact hres
    · have := hall st hstmem
      rw [this] at hstfit
      injection hstfit with hh
      exact absurd hh.symm hninf
  · intro g hg ind hind f hf
    exact ((hbound2 g hg) ind hind).2 f hf
  · intro hres g hg ind hind
    obtain ⟨⟨f, hf⟩, hbd⟩ := (hbound2 g hg) ind hind
    have hlef := hbd f hf
    rw [hres] at hlef
    rw [PyFloat.eq_inf_of_inf_le hlef] at hf
    exact hf
  · intro hall
    rcases hcase2 with hres | ⟨hsome, hninf, g, hgmem, ind, hindmem, hifit⟩
    · exact hres
    · have := hall g hgmem ind hindmem
      rw [this] at hifit
      injection hifit with hh
      exact absurd hh.symm hninf

/-- Witness for C10: one random-search iteration whose candidate has no
`TIME` line (fitness `+inf`, result `(None, +inf)`), and one genetic
generation whose single individual is timed at 2.0 seconds (result best
fitness 2). -/
theorem C10_search_returns_minimum_witness :
    (∀ st ∈ executedRS [⟨false, [0], .completed 0 [] [], .completed 0 [] []⟩], ∀ f,
        rsFitness false [] (.parsed [.passS]) ("f") none st = .ok f →
        ((none : Option Source), PyFloat.inf).2.le f = true)
    ∧ (((none : Option Source), PyFloat.inf) = ((none : Option Source), PyFloat.inf) ↔
        ∀ st ∈ executedRS [⟨false, [0], .completed 0 [] [], .completed 0 [] []⟩],
          rsFitness false [] (.parsed [.passS]) ("f") none st = .ok .inf)
    ∧ (∀ g ∈ executedGens
          [⟨true, [⟨[0], .completed 0 [] [], .completed 0 [("TIME 2.0")] []⟩]⟩],
        ∀ ind ∈ g.pop, ∀ f,
        eval_ind false [] (.parsed [.passS]) ("f") none ind.genome
          ind.corrRun ind.timeRun = .ok f →
        ((some (Source.parsed [.passS]) : Option Source), PyFloat.val (mkRat 20 10)).2.le f = true)
    ∧ (((some (Source.parsed [.passS]) : Option Source), PyFloat.val (mkRat 20 10))
          = (none, .inf) ↔
        ∀ g ∈ executedGens
            [⟨true, [⟨[0], .completed 0 [] [], .completed 0 [("TIME 2.0")] []⟩]⟩],
          ∀ ind ∈ g.pop,
          eval_ind false [] (.parsed [.passS]) ("f") none ind.genome
            ind.corrRun ind.timeRun = .ok .inf) :=
  C10_search_returns_minimum false [] (.parsed [.passS]) ("f") none
    [⟨false, [0], .completed 0 [] [], .completed 0 [] []⟩]
    [⟨true, [⟨[0], .completed 0 [] [], .completed 0 [("TIME 2.0")] []⟩]⟩]
    (none, .inf) (some (.parsed [.passS]), .val (mkRat 20 10))
    (by decide) (by decide)

end Evoc

namespace Evoc

/-! ### C8: idempotence of annotation attachment -/

theorem decorateStmt_fst_of_import {s : PStmt} (fn : String) (dec : PExpr)
    (h : isImportStmt s = true) : decorateStmt fn dec s = (s, false) := by
  cases s <;> simp_all [decorateStmt, isImportStmt]

theorem isImport_decorateStmt_fst (fn : String) (dec : PExpr) (s : PStmt) :
    isImportStmt (decorateStmt fn dec s).1 = isImportStmt s := by
  cases s with
  | functionDef nm args decs body =>
    simp only [decorateStmt]
    split_ifs <;> simp [isImportStmt]
  | _ => rfl

theorem filter_imports_map_decorate (fn : String) (dec : PExpr) (l : List PStmt) :
    (l.map (fun s => (decorateStmt fn dec s).1)).filter isImportStmt
      = l.filter isImportStmt := by
  induction l with
  | nil => rfl
  | cons s rest ih =>
    simp only [List.map_cons, List.filter_cons, isImport_decorateStmt_fst]
    by_cases h : isImportStmt s
    · rw [if_pos h, if_pos h, decorateStmt_fst_of_import fn dec h, ih]
    · rw [if_neg h, if_neg h, ih]

theorem parseImportLine_isImport {ln : PyStr} {st : PStmt}
    (h : parseImportLine? ln = some st) : isImportStmt st = true := by
  unfold parseImportLine? at h
  split at h
  all_goals first
    | (split_ifs at h <;> cases h <;> rfl)
    | (cases h)

theorem specImports_isImport (spec : String) :
    ∀ n ∈ specImports spec, isImportStmt n = true := by
  have key : ∀ (ls : List PyStr) (acc : List PStmt × Option PyStr),
      (∀ n ∈ acc.1, isImportStmt n = true) →
      ∀ n ∈ (ls.foldl processSpecLine acc).1, isImportStmt n = true := by
    intro ls
    induction ls with
    | nil => intro acc hacc n hn; exact hacc n hn
    | cons ln rest ih =>
      intro acc hacc n hn
      refine ih (processSpecLine acc ln) ?_ n hn
      unfold processSpecLine
      split_ifs with h1 h2
      · exact hacc
      · cases hp : parseImportLine? ln with
        | none => simpa [hp] using hacc
        | some m =>
          simp only [hp]
          intro x hx
          rw [List.mem_append] at hx
          rcases hx with hx | hx
          · exact hacc x hx
          · rw [List.mem_singleton] at hx
            subst hx
            exact parseImportLine_isImport hp
      · exact hacc
  intro n hn
  exact key _ ([], none) (by simp) n hn

theorem decorateStmt_fst_eq_functionDef {fn : String} {dec : PExpr} {s : PStmt}
    {nm : String} {args : List String} {decs : List PExpr} {body : PStmts}
    (h : (decorateStmt fn dec s).1 = .functionDef nm args decs body) :
    ∃ decs0, s = .functionDef nm args decs0 body ∧
      ((nm = fn ∧ ((dec ∈ decs0 ∧ decs = decs0) ∨ (dec ∉ decs0 ∧ decs = dec :: decs0)))
       ∨ (¬ nm = fn ∧ decs = decs0)) := by
  cases s with
  | functionDef nm' args' decs' body' =>
    simp only [decorateStmt] at h
    by_cases hnm : nm' = fn
    · rw [if_pos hnm] at h
      by_cases hmem : dec ∈ decs'
      · rw [if_pos hmem] at h
        injection h with h1 h2 h3 h4
        subst h1; subst h2; subst h3; subst h4
        exact ⟨decs', rfl, Or.inl ⟨hnm, Or.inl ⟨hmem, rfl⟩⟩⟩
      · rw [if_neg hmem] at h
        injection h with h1 h2 h3 h4
        subst h1; subst h2; subst h4
        exact ⟨decs', rfl, Or.inl ⟨hnm, Or.inr ⟨hmem, h3.symm⟩⟩⟩
    · rw [if_neg hnm] at h
      injection h with h1 h2 h3 h4
      subst h1; subst h2; subst h3; subst h4
      exact ⟨decs', rfl, Or.inr ⟨hnm, rfl⟩⟩
  | assign ts v => simp [decorateStmt] at h
  | forS t i b e => simp [decorateStmt] at h
  | exprS v => simp [decorateStmt] at h
  | ret v => simp [decorateStmt] at h
  | importS ms => simp [decorateStmt] at h
  | importFrom md ns => simp [decorateStmt] at h
  | passS => simp [decorateStmt] at h

theorem decorateStmt_snd_eq (fn : String) (dec : PExpr) (s : PStmt) :
    ((decorateStmt fn dec s).2 = true ↔
      ∃ args decs body, s = .functionDef fn args decs body) := by
  cases s with
  | functionDef nm args decs body =>
    simp only [decorateStmt]
    split_ifs with h1 h2 <;> simp_all
  | assign ts v => simp [decorateStmt]
  | forS t i b e => simp [decorateStmt]
  | exprS v => simp [decorateStmt]
  | ret v => simp [decorateStmt]
  | importS ms => simp [decorateStmt]
  | importFrom md ns => simp [decorateStmt]
  | passS => simp [decorateStmt]

end Evoc

namespace Evoc

theorem add_decorator_eq_of_dec (tree : Module) (fn spec : String) (dec : PExpr)
    (hdec : specDecorator? spec = some dec) :
    add_decorator_to_function (.parsed tree) fn spec =
      (if (((((specImports spec).filter
            (fun n => decide (n ∉ tree.filter isImportStmt))) ++ tree).map
            (decorateStmt fn dec)).any (fun r => r.2))
       then .ok (some (.parsed ((((((specImports spec).filter
            (fun n => decide (n ∉ tree.filter isImportStmt))) ++ tree).map
            (decorateStmt fn dec)).map (fun r => r.1)))))
       else .ok none) := by
  simp only [add_decorator_to_function, hdec]

theorem decorateStmt_fst_idem (fn : String) (dec : PExpr) (s0 : PStmt) :
    decorateStmt fn dec ((decorateStmt fn dec s0).1) = ((decorateStmt fn dec s0).1,
      (decorateStmt fn dec s0).2) := by
  cases s0 with
  | functionDef nm args decs body =>
    simp only [decorateStmt]
    by_cases h1 : nm = fn
    · by_cases h2 : dec ∈ decs
      · simp [decorateStmt, h1, h2]
      · simp [decorateStmt, h1, h2]
    · simp [decorateStmt, h1]
  | assign ts v => rfl
  | forS t i b e => rfl
  | exprS v => rfl
  | ret v => rfl
  | importS ms => rfl
  | importFrom md ns => rfl
  | passS => rfl

/-- Claim C8, amended: for a parseable source whose `fnName` functions carry no
duplicate copy of the spec's annotation, a successful application of
`add_decorator_to_function` is idempotent — the second application with
the same spec succeeds and returns exactly the first result — and in that
result the annotation occurs exactly once on every top-level function
named `fnName` (in particular the second application duplicates neither
the annotation nor its import). -/
theorem C8_add_decorator_idempotent (tree : Module) (fnName spec : String)
    (dec : PExpr) (t1 : Module)
    (hdec : specDecorator? spec = some dec)
    (h1 : add_decorator_to_function (.parsed tree) fnName spec = .ok (some (.parsed t1)))
    (hnodup : ∀ nm args decs body, PStmt.functionDef nm args decs body ∈ tree →
        nm = fnName → List.count dec decs ≤ 1) :
    add_decorator_to_function (.parsed t1) fnName spec = .ok (some (.parsed t1))
    ∧ ∀ nm args decs body, PStmt.functionDef nm args decs body ∈ t1 →
        nm = fnName → List.count dec decs = 1 := by
  rw [add_decorator_eq_of_dec tree fnName spec dec hdec] at h1
  set imps := specImports spec with himps
  set existing := tree.filter isImportStmt with hexisting
  set toInsert := imps.filter (fun n => decide (n ∉ existing)) with htoInsert
  set tree1 := toInsert ++ tree with htree1
  by_cases hany : ((tree1.map (decorateStmt fnName dec)).any (fun r => r.2)) = true
  case neg =>
    rw [if_neg hany] at h1
    cases h1
  case pos =>
    rw [if_pos hany] at h1
    injection h1 with h1a
    injection h1a with h1b
    injection h1b with htl
    rw [List.map_map] at htl
    simp only [Function.comp_def] at htl
    -- htl : tree1.map (fun s => (decorateStmt fnName dec s).1) = t1
    have hmem_t1 : ∀ s ∈ t1, ∃ s0 ∈ tree1, (decorateStmt fnName dec s0).1 = s := by
      intro s hs
      rw [← htl] at hs
      obtain ⟨s0, hs0, hs0eq⟩ := List.mem_map.mp hs
      exact ⟨s0, hs0, hs0eq⟩
    -- the imports of t1
    have himp_t1 : t1.filter isImportStmt = toInsert.filter isImportStmt ++ existing := by
      rw [← htl]
      rw [filter_imports_map_decorate, htree1, List.filter_append, hexisting]
    -- second-run import insertion is empty
    have hins2 : imps.filter (fun n => decide (n ∉ t1.filter isImportStmt)) = [] := by
      rw [List.filter_eq_nil_iff]
      intro n hn
      simp only [decide_eq_true_eq, Decidable.not_not]
      rw [himp_t1, List.mem_append]
      by_cases hmem : n ∈ existing
      · exact Or.inr hmem
      · refine Or.inl (List.mem_filter.mpr ⟨?_, specImports_isImport spec n hn⟩)
        exact List.mem_filter.mpr ⟨hn, by simp [hmem]⟩
    -- pointwise idempotence on t1
    have hpt1 : ∀ s ∈ t1, (decorateStmt fnName dec s).1 = s := by
      intro s hs
      obtain ⟨s0, _, hs0eq⟩ := hmem_t1 s hs
      rw [← hs0eq, decorateStmt_fst_idem]
    have hmapid : t1.map (fun s => (decorateStmt fnName dec s).1) = t1 := by
      calc t1.map (fun s => (decorateStmt fnName dec s).1)
          = t1.map id := List.map_congr_left hpt1
        _ = t1 := List.map_id t1
    -- the second run still finds a matching function
    have hany2 : ((t1.map (decorateStmt fnName dec)).any (fun r => r.2)) = true := by
      rw [List.any_eq_true] at hany ⊢
      obtain ⟨r, hr, hr2⟩ := hany
      obtain ⟨s0, hs0, hs0eq⟩ := List.mem_map.mp hr
      rw [← hs0eq] at hr2
      obtain ⟨args0, decs0, body0, hs0fn⟩ := (decorateStmt_snd_eq fnName dec s0).mp hr2
      have hfst_mem : (decorateStmt fnName dec s0).1 ∈ t1 := by
        rw [← htl]
        exact List.mem_map.mpr ⟨s0, hs0, rfl⟩
      refine ⟨decorateStmt fnName dec ((decorateStmt fnName dec s0).1),
        List.mem_map.mpr ⟨_, hfst_mem, rfl⟩, ?_⟩
      rw [decorateStmt_fst_idem]
      subst hs0fn
      simp only [decorateStmt]
      by_cases h2 : dec ∈ decs0 <;> simp [h2]
    constructor
    · rw [add_decorator_eq_of_dec t1 fnName spec dec hdec]
      rw [← himps, hins2]
      simp only [List.nil_append]
      rw [if_pos hany2, List.map_map]
      simp only [Function.comp_def]
      rw [hmapid]
    · intro nm args decs body hmem hnm
      obtain ⟨s0, hs0mem, hs0eq⟩ := hmem_t1 _ hmem
      obtain ⟨decs0, hs0, hcases⟩ := decorateStmt_fst_eq_functionDef hs0eq
      rw [htree1, List.mem_append] at hs0mem
      rcases hs0mem with hs0mem | hs0mem
      · -- impossible: toInsert holds only imports
        have : isImportStmt s0 = true := by
          rw [htoInsert] at hs0mem
          exact specImports_isImport spec s0 (List.mem_filter.mp hs0mem).1
        rw [hs0] at this
        simp [isImportStmt] at this
      · have hc0 : List.count dec decs0 ≤ 1 := by
          apply hnodup nm args decs0 body _ hnm
          rw [← hs0]; exact hs0mem
        rcases hcases with ⟨_, hsub⟩ | ⟨hne, _⟩
        · rcases hsub with ⟨hin, hdecs⟩ | ⟨hnin, hdecs⟩
          · rw [hdecs]
            have hpos : 0 < List.count dec decs0 := List.count_pos_iff.mpr hin
            omega
          · rw [hdecs, List.count_cons_self, List.count_eq_zero.mpr hnin]
        · exact absurd hnm hne

end Evoc

namespace Evoc

/-- Counterexample for claim C8: on a source in which the annotation already occurs
twice on `f`, applying `addAnnotationToFunction` twice (both applications
reported successful) leaves both copies in place — the annotation occurs
twice on `f`, not exactly once, refuting the claim as universally
stated. -/
theorem C8_counterexample :
    add_decorator_to_function (.parsed [.functionDef ("f") []
        [.call (.name ("lru_cache")) .nil (.cons ("maxsize") .constNone .nil),
         .call (.name ("lru_cache")) .nil (.cons ("maxsize") .constNone .nil)]
        (.cons .passS .nil)]) ("f") lruDecCore
      = .ok (some (.parsed [
          .importFrom ("functools") [("lru_cache")],
          .functionDef ("f") []
            [.call (.name ("lru_cache")) .nil (.cons ("maxsize") .constNone .nil),
             .call (.name ("lru_cache")) .nil (.cons ("maxsize") .constNone .nil)]
            (.cons .passS .nil)]))
    ∧ add_decorator_to_function (.parsed [
          .importFrom ("functools") [("lru_cache")],
          .functionDef ("f") []
            [.call (.name ("lru_cache")) .nil (.cons ("maxsize") .constNone .nil),
             .call (.name ("lru_cache")) .nil (.cons ("maxsize") .constNone .nil)]
            (.cons .passS .nil)]) ("f") lruDecCore
      = .ok (some (.parsed [
          .importFrom ("functools") [("lru_cache")],
          .functionDef ("f") []
            [.call (.name ("lru_cache")) .nil (.cons ("maxsize") .constNone .nil),
             .call (.name ("lru_cache")) .nil (.cons ("maxsize") .constNone .nil)]
            (.cons .passS .nil)]))
    ∧ List.count (.call (.name ("lru_cache")) .nil (.cons ("maxsize") .constNone .nil))
        [PExpr.call (.name ("lru_cache")) .nil (.cons ("maxsize") .constNone .nil),
         PExpr.call (.name ("lru_cache")) .nil (.cons ("maxsize") .constNone .nil)] = 2 := by
  refine ⟨by decide, by decide, by decide⟩

/-- Witness for C8 at the concrete memoize spec of `core.py` on
`def f(): pass`. -/
theorem C8_add_decorator_idempotent_witness :
    add_decorator_to_function (.parsed [
        .importFrom ("functools") [("lru_cache")],
        .functionDef ("f") []
          [.call (.name ("lru_cache")) .nil (.cons ("maxsize") .constNone .nil)]
          (.cons .passS .nil)]) ("f") lruDecCore
      = .ok (some (.parsed [
          .importFrom ("functools") [("lru_cache")],
          .functionDef ("f") []
            [.call (.name ("lru_cache")) .nil (.cons ("maxsize") .constNone .nil)]
            (.cons .passS .nil)]))
    ∧ ∀ nm args decs body, PStmt.functionDef nm args decs body ∈ ([
          .importFrom ("functools") [("lru_cache")],
          .functionDef ("f") []
            [.call (.name ("lru_cache")) .nil (.cons ("maxsize") .constNone .nil)]
            (.cons .passS .nil)] : Module) →
        nm = ("f") →
        List.count (PExpr.call (.name ("lru_cache")) .nil
          (.cons ("maxsize") .constNone .nil)) decs = 1 :=
  C8_add_decorator_idempotent
    [.functionDef ("f") [] [] (.cons .passS .nil)] ("f") lruDecCore
    (.call (.name ("lru_cache")) .nil (.cons ("maxsize") .constNone .nil))
    [.importFrom ("functools") [("lru_cache")],
     .functionDef ("f") []
       [.call (.name ("lru_cache")) .nil (.cons ("maxsize") .constNone .nil)]
       (.cons .passS .nil)]
    (by decide) (by decide)
    (by
      intro nm args decs body hmem hnm
      simp only [List.mem_singleton] at hmem
      cases hmem
      simp)

end Evoc
